import Mathlib

/-!
Verification development for the SO_TP1 grid-capture game engine.

The C sources are shallowly embedded: the board is a flat `Nat → Int`
function indexed row-major (`y * width + x`), players are records mirroring
`player_t` of `common.h`, and the Master's functions (`is_valid_move`,
`apply_move`, `place_players`, `initialize_board`, the event-loop fragments,
the winner loop) become Lean functions that follow the C control flow
statement by statement.  Machine integers are modelled as `Nat`/`Int` with
explicit wraparound (`% 65536` for `unsigned short` stores, `% 2^32` for the
`unsigned int` counters) at the points where the C performs a conversion.
-/

namespace SOTP1

/-- Wraparound applied when a C `int` is stored into an `unsigned short`
field (`player_t.x`, `player_t.y` in `common.h`): the value modulo `2^16`. -/
def ushortOf (n : Int) : Nat := (n % 65536).toNat

/-- Modulus of the C `unsigned int` counters of `player_t`. -/
def uint32 : Nat := 4294967296

/-- Unsigned 32-bit addition of an `int` to an `unsigned int`
(C `score += reward`). -/
def uadd32 (a : Nat) (b : Int) : Nat := (((a : Int) + b) % (uint32 : Int)).toNat

/-- Unsigned 32-bit increment (C `counter++` on an `unsigned int`). -/
def usucc32 (a : Nat) : Nat := (a + 1) % uint32

/-- The fields of `player_t` (common.h lines 28-36) that the embedded code
reads or writes; `name` and `pid` play no part in the verified claims.
`x` and `y` are the `unsigned short` head coordinates, kept as `Nat`
values below `2^16` in well-formed states. -/
structure player_t where
  score : Nat
  invalid_moves : Nat
  valid_moves : Nat
  x : Nat
  y : Nat
  blocked : Bool
deriving DecidableEq

/-- The shared game state `game_state_t` (common.h lines 39-46).  The board
is the flexible array member, row-major: cell (x, y) is `board (y * width + x)`.
`players` is the fixed array `players[MAX_PLAYERS]` modelled as a total
function on indices. -/
structure game_state_t where
  width : Nat
  height : Nat
  player_count : Nat
  players : Nat → player_t
  game_over : Bool
  board : Nat → Int

/-- The direction enumeration `direction_t` of common.h lines 60-69. -/
inductive direction_t where
  | UP
  | UP_RIGHT
  | RIGHT
  | DOWN_RIGHT
  | DOWN
  | DOWN_LEFT
  | LEFT
  | UP_LEFT
deriving DecidableEq

/-- The C cast `(direction_t)move` performed by the Master on a byte already
checked to be at most 7 (master.c line 402): enum values are 0..7 in
declaration order. -/
def direction_t.ofCode : Nat → direction_t
  | 0 => .UP
  | 1 => .UP_RIGHT
  | 2 => .RIGHT
  | 3 => .DOWN_RIGHT
  | 4 => .DOWN
  | 5 => .DOWN_LEFT
  | 6 => .LEFT
  | _ => .UP_LEFT

/-- The direction switch inside `is_valid_move` (master.c lines 83-92):
from the head position (x, y) it yields the candidate (new_x, new_y). -/
def valid_move_target (x y : Int) : direction_t → Int × Int
  | .UP => (x, y - 1)
  | .UP_RIGHT => (x + 1, y - 1)
  | .RIGHT => (x + 1, y)
  | .DOWN_RIGHT => (x + 1, y + 1)
  | .DOWN => (x, y + 1)
  | .DOWN_LEFT => (x - 1, y + 1)
  | .LEFT => (x - 1, y)
  | .UP_LEFT => (x - 1, y - 1)

/-- The textually separate copy of the same switch inside `apply_move`
(master.c lines 114-123). -/
def apply_move_target (x y : Int) : direction_t → Int × Int
  | .UP => (x, y - 1)
  | .UP_RIGHT => (x + 1, y - 1)
  | .RIGHT => (x + 1, y)
  | .DOWN_RIGHT => (x + 1, y + 1)
  | .DOWN => (x, y + 1)
  | .DOWN_LEFT => (x - 1, y + 1)
  | .LEFT => (x - 1, y)
  | .UP_LEFT => (x - 1, y - 1)

/-- `is_valid_move` (master.c lines 78-106): bounds check first, then the
target cell must hold a strictly positive value. -/
def is_valid_move (s : game_state_t) (player_id : Nat) (d : direction_t) : Bool :=
  let x : Int := (s.players player_id).x
  let y : Int := (s.players player_id).y
  let t := valid_move_target x y d
  if t.1 < 0 || (s.width : Int) ≤ t.1 || t.2 < 0 || (s.height : Int) ≤ t.2 then
    false
  else
    let cell_value := s.board (t.2 * (s.width : Int) + t.1).toNat
    if cell_value ≤ 0 then false else true

/-- Pointwise update of the flat board array. -/
def board_write (b : Nat → Int) (idx : Nat) (v : Int) : Nat → Int :=
  fun j => if j = idx then v else b j

/-- Pointwise update of the players array. -/
def players_write (p : Nat → player_t) (i : Nat) (v : player_t) : Nat → player_t :=
  fun j => if j = i then v else p j

/-- `apply_move` (master.c lines 109-138): read the reward at the target,
add it to the score, mark the target cell `-(player_id+1)`, move the head,
and increment `valid_moves`.  The stores into the `unsigned short`
coordinates and the `unsigned int` counters carry the C conversions. -/
def apply_move (s : game_state_t) (player_id : Nat) (d : direction_t) : game_state_t :=
  let x : Int := (s.players player_id).x
  let y : Int := (s.players player_id).y
  let t := apply_move_target x y d
  let idx := (t.2 * (s.width : Int) + t.1).toNat
  let reward := s.board idx
  let pl := s.players player_id
  let pl' : player_t :=
    { pl with
      score := uadd32 pl.score reward
      x := ushortOf t.1
      y := ushortOf t.2
      valid_moves := usucc32 pl.valid_moves }
  { s with
    board := board_write s.board idx (-(player_id + 1 : Int))
    players := players_write s.players player_id pl' }

/-- The two copies of the direction switch compute the same target. -/
theorem valid_eq_apply_target (x y : Int) (d : direction_t) :
    valid_move_target x y d = apply_move_target x y d := by
  cases d <;> rfl

/-- Unfolding of `is_valid_move` into its arithmetic content. -/
theorem is_valid_move_iff (s : game_state_t) (i : Nat) (d : direction_t) :
    is_valid_move s i d = true ↔
      (0 ≤ (valid_move_target ((s.players i).x : Int) ((s.players i).y : Int) d).1 ∧
        (valid_move_target ((s.players i).x : Int) ((s.players i).y : Int) d).1 <
          (s.width : Int) ∧
        0 ≤ (valid_move_target ((s.players i).x : Int) ((s.players i).y : Int) d).2 ∧
        (valid_move_target ((s.players i).x : Int) ((s.players i).y : Int) d).2 <
          (s.height : Int)) ∧
      0 < s.board
        ((valid_move_target ((s.players i).x : Int) ((s.players i).y : Int) d).2 *
            (s.width : Int) +
          (valid_move_target ((s.players i).x : Int) ((s.players i).y : Int) d).1).toNat := by
  unfold is_valid_move
  by_cases hb :
      ((valid_move_target ((s.players i).x : Int) ((s.players i).y : Int) d).1 < 0 ||
        (s.width : Int) ≤ (valid_move_target ((s.players i).x : Int) ((s.players i).y : Int) d).1 ||
        (valid_move_target ((s.players i).x : Int) ((s.players i).y : Int) d).2 < 0 ||
        (s.height : Int) ≤ (valid_move_target ((s.players i).x : Int) ((s.players i).y : Int) d).2) = true
  · simp only [hb, if_true]
    simp only [Bool.or_eq_true, decide_eq_true_eq] at hb
    constructor
    · intro h
      exact absurd h (by simp)
    · intro h
      omega
  · simp only [hb, if_false]
    simp only [Bool.or_eq_true, decide_eq_true_eq] at hb
    push_neg at hb
    constructor
    · intro h
      by_cases hc :
          s.board
            ((valid_move_target ((s.players i).x : Int) ((s.players i).y : Int) d).2 *
                (s.width : Int) +
              (valid_move_target ((s.players i).x : Int) ((s.players i).y : Int) d).1).toNat ≤ 0
      · simp [hc] at h
      · refine ⟨⟨?_, ?_, ?_, ?_⟩, ?_⟩ <;> omega
    · intro h
      have hc :
          ¬ s.board
            ((valid_move_target ((s.players i).x : Int) ((s.players i).y : Int) d).2 *
                (s.width : Int) +
              (valid_move_target ((s.players i).x : Int) ((s.players i).y : Int) d).1).toNat ≤ 0 := by
        omega
      simp [hc]

/-- The claim's direction-offset table, taken from the spec's words:
code 0..7 maps to (dx, dy) in the exact order UP(0,-1), UP_RIGHT(+1,-1),
RIGHT(+1,0), DOWN_RIGHT(+1,+1), DOWN(0,+1), DOWN_LEFT(-1,+1), LEFT(-1,0),
UP_LEFT(-1,-1). -/
def spec_dir_offset : Nat → Int × Int
  | 0 => (0, -1)
  | 1 => (1, -1)
  | 2 => (1, 0)
  | 3 => (1, 1)
  | 4 => (0, 1)
  | 5 => (-1, 1)
  | 6 => (-1, 0)
  | _ => (-1, -1)

/-- The claim's validity condition, written from the spec's words: the
target obtained by adding the offset of the code to the head position is
within bounds and the target cell's value is strictly positive. -/
def spec_is_valid (s : game_state_t) (i code : Nat) : Prop :=
  0 ≤ ((s.players i).x : Int) + (spec_dir_offset code).1 ∧
  ((s.players i).x : Int) + (spec_dir_offset code).1 < (s.width : Int) ∧
  0 ≤ ((s.players i).y : Int) + (spec_dir_offset code).2 ∧
  ((s.players i).y : Int) + (spec_dir_offset code).2 < (s.height : Int) ∧
  0 < s.board
    ((((s.players i).y : Int) + (spec_dir_offset code).2) * (s.width : Int) +
      (((s.players i).x : Int) + (spec_dir_offset code).1)).toNat

/-- C4 — move validity: for every state, player and direction code in 0..7,
`is_valid_move` accepts the move iff the target reached by the spec's offset
table (in its exact order) is in bounds and holds a strictly positive cell. -/
theorem C4_move_validity (s : game_state_t) (i code : Nat) (hc : code < 8) :
    is_valid_move s i (direction_t.ofCode code) = true ↔ spec_is_valid s i code := by
  interval_cases code <;>
    simp [is_valid_move_iff, spec_is_valid, spec_dir_offset, direction_t.ofCode,
      valid_move_target, sub_eq_add_neg, and_assoc]

/-- Demonstration state: a 3 by 3 board of fives with one player at (0,0). -/
def demo_player : player_t :=
  { score := 0, invalid_moves := 0, valid_moves := 0, x := 0, y := 0, blocked := false }

/-- Demonstration state used by witnesses. -/
def demo_state : game_state_t :=
  { width := 3, height := 3, player_count := 1, players := fun _ => demo_player,
    game_over := false, board := fun _ => 5 }

/-- Witness for C4 at the demonstration state with code 2 (RIGHT). -/
theorem C4_move_validity_witness :
    is_valid_move demo_state 0 (direction_t.ofCode 2) = true ↔ spec_is_valid demo_state 0 2 :=
  C4_move_validity demo_state 0 2 (by decide)

/-- C9 — apply-move memory safety under the validity precondition: when
`is_valid_move` accepts, `apply_move` computes the same target coordinates,
the target is within bounds, and the flat board index stays below
`width * height`, so the board access is total. -/
theorem C9_apply_move_safety (s : game_state_t) (i : Nat) (d : direction_t)
    (hv : is_valid_move s i d = true) :
    apply_move_target ((s.players i).x : Int) ((s.players i).y : Int) d =
      valid_move_target ((s.players i).x : Int) ((s.players i).y : Int) d ∧
    0 ≤ (apply_move_target ((s.players i).x : Int) ((s.players i).y : Int) d).1 ∧
    (apply_move_target ((s.players i).x : Int) ((s.players i).y : Int) d).1 < (s.width : Int) ∧
    0 ≤ (apply_move_target ((s.players i).x : Int) ((s.players i).y : Int) d).2 ∧
    (apply_move_target ((s.players i).x : Int) ((s.players i).y : Int) d).2 < (s.height : Int) ∧
    ((apply_move_target ((s.players i).x : Int) ((s.players i).y : Int) d).2 * (s.width : Int) +
        (apply_move_target ((s.players i).x : Int) ((s.players i).y : Int) d).1).toNat <
      s.width * s.height := by
  rw [is_valid_move_iff, valid_eq_apply_target] at hv
  obtain ⟨⟨h1, h2, h3, h4⟩, _⟩ := hv
  refine ⟨(valid_eq_apply_target _ _ _).symm, h1, h2, h3, h4, ?_⟩
  have hW : (0 : Int) ≤ (s.width : Int) := by positivity
  have hnn : 0 ≤ (apply_move_target ((s.players i).x : Int) ((s.players i).y : Int) d).2 *
      (s.width : Int) +
      (apply_move_target ((s.players i).x : Int) ((s.players i).y : Int) d).1 :=
    add_nonneg (mul_nonneg h3 hW) h1
  rw [Int.toNat_lt hnn]
  push_cast
  have step1 :
      (apply_move_target ((s.players i).x : Int) ((s.players i).y : Int) d).2 *
          (s.width : Int) +
        (apply_move_target ((s.players i).x : Int) ((s.players i).y : Int) d).1 <
      ((apply_move_target ((s.players i).x : Int) ((s.players i).y : Int) d).2 + 1) *
        (s.width : Int) := by
    have e : ((apply_move_target ((s.players i).x : Int) ((s.players i).y : Int) d).2 + 1) *
        (s.width : Int) =
        (apply_move_target ((s.players i).x : Int) ((s.players i).y : Int) d).2 *
          (s.width : Int) + (s.width : Int) := by ring
    rw [e]
    linarith
  have step2 :
      ((apply_move_target ((s.players i).x : Int) ((s.players i).y : Int) d).2 + 1) *
        (s.width : Int) ≤ (s.height : Int) * (s.width : Int) :=
    mul_le_mul_of_nonneg_right (by omega) hW
  have e2 : (s.height : Int) * (s.width : Int) = (s.width : Int) * (s.height : Int) := by ring
  linarith

/-- Witness for C9 at the demonstration state with direction RIGHT. -/
theorem C9_apply_move_safety_witness :
    apply_move_target ((demo_state.players 0).x : Int) ((demo_state.players 0).y : Int)
        direction_t.RIGHT =
      valid_move_target ((demo_state.players 0).x : Int) ((demo_state.players 0).y : Int)
        direction_t.RIGHT ∧
    0 ≤ (apply_move_target ((demo_state.players 0).x : Int) ((demo_state.players 0).y : Int)
        direction_t.RIGHT).1 ∧
    (apply_move_target ((demo_state.players 0).x : Int) ((demo_state.players 0).y : Int)
        direction_t.RIGHT).1 < (demo_state.width : Int) ∧
    0 ≤ (apply_move_target ((demo_state.players 0).x : Int) ((demo_state.players 0).y : Int)
        direction_t.RIGHT).2 ∧
    (apply_move_target ((demo_state.players 0).x : Int) ((demo_state.players 0).y : Int)
        direction_t.RIGHT).2 < (demo_state.height : Int) ∧
    ((apply_move_target ((demo_state.players 0).x : Int) ((demo_state.players 0).y : Int)
        direction_t.RIGHT).2 * (demo_state.width : Int) +
      (apply_move_target ((demo_state.players 0).x : Int) ((demo_state.players 0).y : Int)
        direction_t.RIGHT).1).toNat < demo_state.width * demo_state.height :=
  C9_apply_move_safety demo_state 0 direction_t.RIGHT (by decide)

/-- Unsigned 32-bit addition of a strictly positive reward is plain addition
modulo `2^32`. -/
theorem uadd32_pos (a : Nat) (b : Int) (hb : 0 < b) :
    uadd32 a b = (a + b.toNat) % uint32 := by
  unfold uadd32 uint32
  omega

/-- Storing an in-range `int` into an `unsigned short` keeps its value. -/
theorem ushortOf_eq (n : Int) (h0 : 0 ≤ n) (h1 : n < 65536) :
    (ushortOf n : Int) = n := by
  unfold ushortOf
  omega

/-- Distinct in-range coordinates give distinct row-major flat indices. -/
theorem flat_index_ne (W H x y : Nat) (tx ty : Int) (hx : x < W) (hy : y < H)
    (h1 : 0 ≤ tx) (h2 : tx < (W : Int)) (h3 : 0 ≤ ty) (h4 : ty < (H : Int))
    (hne : ¬(tx = (x : Int) ∧ ty = (y : Int))) :
    y * W + x ≠ (ty * (W : Int) + tx).toNat := by
  obtain ⟨a, rfl⟩ : ∃ a : Nat, tx = (a : Int) := ⟨tx.toNat, (Int.toNat_of_nonneg h1).symm⟩
  obtain ⟨b, rfl⟩ : ∃ b : Nat, ty = (b : Int) := ⟨ty.toNat, (Int.toNat_of_nonneg h3).symm⟩
  have ha : a < W := by exact_mod_cast h2
  have hb : b < H := by exact_mod_cast h4
  have ecast : ((b : Int) * (W : Int) + (a : Int)) = ((b * W + a : Nat) : Int) := by
    push_cast
    ring
  rw [ecast, Int.toNat_natCast]
  intro h
  have e1 : (y * W + x) % W = x := by
    rw [Nat.add_comm, Nat.add_mul_mod_self_right, Nat.mod_eq_of_lt hx]
  have e2 : (b * W + a) % W = a := by
    rw [Nat.add_comm, Nat.add_mul_mod_self_right, Nat.mod_eq_of_lt ha]
  have hxa : x = a := by rw [← e1, ← e2, h]
  have hyb : y = b := by
    have hW : 0 < W := Nat.lt_of_le_of_lt (Nat.zero_le _) hx
    have : y * W = b * W := by omega
    exact Nat.eq_of_mul_eq_mul_right hW this
  exact hne ⟨by exact_mod_cast hxa.symm, by exact_mod_cast hyb.symm⟩

/-- Every direction moves the target off the source square. -/
theorem apply_target_ne_source (x y : Int) (d : direction_t) :
    ¬((apply_move_target x y d).1 = x ∧ (apply_move_target x y d).2 = y) := by
  cases d <;> simp [apply_move_target]

/-- C3 — apply-move postcondition: on a valid move, `apply_move` adds the
target cell's value to the player's score (unsigned 32-bit), writes
`-(i+1)` into the target cell, moves the head to the target, increments
`valid_moves` by one (unsigned 32-bit), and leaves the player's other
counters, every other board cell — the previously occupied cell among
them — and every other player record unchanged.  The hypotheses record the
`unsigned short` ranges of the width and height fields and the data-model
invariant that the head lies on the board. -/
theorem C3_apply_move_post (s : game_state_t) (i : Nat) (d : direction_t) (tx ty : Int)
    (hw : s.width < 65536) (hh : s.height < 65536)
    (hx : (s.players i).x < s.width) (hy : (s.players i).y < s.height)
    (hv : is_valid_move s i d = true)
    (ht : apply_move_target ((s.players i).x : Int) ((s.players i).y : Int) d = (tx, ty)) :
    ((apply_move s i d).players i).score =
      ((s.players i).score + (s.board (ty * (s.width : Int) + tx).toNat).toNat) % uint32 ∧
    (apply_move s i d).board (ty * (s.width : Int) + tx).toNat = -(i + 1 : Int) ∧
    (((apply_move s i d).players i).x : Int) = tx ∧
    (((apply_move s i d).players i).y : Int) = ty ∧
    ((apply_move s i d).players i).valid_moves = ((s.players i).valid_moves + 1) % uint32 ∧
    ((apply_move s i d).players i).invalid_moves = (s.players i).invalid_moves ∧
    ((apply_move s i d).players i).blocked = (s.players i).blocked ∧
    (∀ j, j ≠ (ty * (s.width : Int) + tx).toNat → (apply_move s i d).board j = s.board j) ∧
    (apply_move s i d).board ((s.players i).y * s.width + (s.players i).x) =
      s.board ((s.players i).y * s.width + (s.players i).x) ∧
    (∀ j, j ≠ i → (apply_move s i d).players j = s.players j) := by
  rw [is_valid_move_iff, valid_eq_apply_target] at hv
  rw [ht] at hv
  obtain ⟨⟨h1, h2, h3, h4⟩, h5⟩ := hv
  simp only at h1 h2 h3 h4 h5
  have hsrc : ¬(tx = ((s.players i).x : Int) ∧ ty = ((s.players i).y : Int)) := by
    intro hc
    exact apply_target_ne_source ((s.players i).x : Int) ((s.players i).y : Int) d
      (by rw [ht]; exact ⟨hc.1, hc.2⟩)
  have hold := flat_index_ne s.width s.height (s.players i).x (s.players i).y tx ty
    hx hy h1 h2 h3 h4 hsrc
  refine ⟨?_, ?_, ?_, ?_, ?_, ?_, ?_, ?_, ?_, ?_⟩
  · simp [apply_move, ht, players_write]
    exact uadd32_pos _ _ h5
  · simp [apply_move, ht, board_write]
  · simp [apply_move, ht, players_write]
    exact ushortOf_eq tx h1 (by omega)
  · simp [apply_move, ht, players_write]
    exact ushortOf_eq ty h3 (by omega)
  · simp [apply_move, ht, players_write, usucc32]
  · simp [apply_move, ht, players_write]
  · simp [apply_move, ht, players_write]
  · intro j hj
    simp [apply_move, ht, board_write, hj]
  · simp [apply_move, ht, board_write, hold]
  · intro j hj
    simp [apply_move, ht, players_write, hj]

/-- Witness for C3: one valid RIGHT move on the demonstration state. -/
theorem C3_apply_move_post_witness :
    ((apply_move demo_state 0 direction_t.RIGHT).players 0).score =
      ((demo_state.players 0).score +
        (demo_state.board ((0 : Int) * (demo_state.width : Int) + 1).toNat).toNat) % uint32 ∧
    (apply_move demo_state 0 direction_t.RIGHT).board
      ((0 : Int) * (demo_state.width : Int) + 1).toNat = -(0 + 1 : Int) ∧
    (((apply_move demo_state 0 direction_t.RIGHT).players 0).x : Int) = 1 ∧
    (((apply_move demo_state 0 direction_t.RIGHT).players 0).y : Int) = 0 ∧
    ((apply_move demo_state 0 direction_t.RIGHT).players 0).valid_moves =
      ((demo_state.players 0).valid_moves + 1) % uint32 ∧
    ((apply_move demo_state 0 direction_t.RIGHT).players 0).invalid_moves =
      (demo_state.players 0).invalid_moves ∧
    ((apply_move demo_state 0 direction_t.RIGHT).players 0).blocked =
      (demo_state.players 0).blocked ∧
    (∀ j, j ≠ ((0 : Int) * (demo_state.width : Int) + 1).toNat →
      (apply_move demo_state 0 direction_t.RIGHT).board j = demo_state.board j) ∧
    (apply_move demo_state 0 direction_t.RIGHT).board
      ((demo_state.players 0).y * demo_state.width + (demo_state.players 0).x) =
      demo_state.board
        ((demo_state.players 0).y * demo_state.width + (demo_state.players 0).x) ∧
    (∀ j, j ≠ 0 → (apply_move demo_state 0 direction_t.RIGHT).players j =
      demo_state.players j) :=
  C3_apply_move_post demo_state 0 direction_t.RIGHT 1 0 (by decide) (by decide)
    (by decide) (by decide) (by decide) (by decide)

/-- `initialize_board` (master.c lines 45-52): every cell of the rectangle
receives `(rand() % 9) + 1`.  The `rand` stream seeded by `srand` is
abstracted as the sequence `rnd`; the cell written at flat index `idx`
consumes the `idx`-th value of the stream (the loops are row-major). -/
def initialize_board (rnd : Nat → Nat) (s : game_state_t) : game_state_t :=
  { s with
    board := fun idx =>
      if idx < s.height * s.width then ((rnd idx % 9 + 1 : Nat) : Int) else s.board idx }

/-- The `positions` table of `place_players` (master.c lines 57-67); entry i
is (row, column). -/
def start_positions (w h : Int) : Nat → Int × Int
  | 0 => (0, 0)
  | 1 => (0, w - 1)
  | 2 => (h - 1, 0)
  | 3 => (h - 1, w - 1)
  | 4 => (h / 2, w / 2)
  | 5 => (0, w / 2)
  | 6 => (h - 1, w / 2)
  | 7 => (h / 2, 0)
  | _ => (h / 2, w - 1)

/-- One iteration of the `place_players` loop (master.c lines 69-74): store
the starting coordinates into player i and mark the cell `-(i+1)`. -/
def place_player (s : game_state_t) (i : Nat) : game_state_t :=
  let p := start_positions (s.width : Int) (s.height : Int) i
  let pl := s.players i
  { s with
    players := players_write s.players i { pl with x := ushortOf p.2, y := ushortOf p.1 },
    board := board_write s.board (p.1 * (s.width : Int) + p.2).toNat (-(i + 1 : Int)) }

/-- `place_players` (master.c lines 55-75): the placement loop over all
player indices below `player_count`. -/
def place_players (s : game_state_t) : game_state_t :=
  (List.range s.player_count).foldl place_player s

/-- The Master's startup state (master.c lines 243-258): header fields and
zeroed player records, then `initialize_board` and `place_players`. -/
def init_player : player_t :=
  { score := 0, invalid_moves := 0, valid_moves := 0, x := 0, y := 0, blocked := false }

/-- The game state as the Master leaves it after startup. -/
def master_init (w h pc : Nat) (rnd : Nat → Nat) : game_state_t :=
  place_players (initialize_board rnd
    { width := w, height := h, player_count := pc, players := fun _ => init_player,
      game_over := false, board := fun _ => 0 })

/-- One Master board mutation: a placement iteration, or the application of
a move that `is_valid_move` accepted (master.c lines 402-404). -/
inductive MasterStep : game_state_t → game_state_t → Prop
  | place (s : game_state_t) (i : Nat) (hi : i < s.player_count) :
      MasterStep s (place_player s i)
  | move (s : game_state_t) (i : Nat) (d : direction_t) (hi : i < s.player_count)
      (hv : is_valid_move s i d = true) : MasterStep s (apply_move s i d)

/-- States reachable from the Master's initialization by any sequence of
board-placement and move-application steps. -/
inductive MasterReachable (w h pc : Nat) (rnd : Nat → Nat) : game_state_t → Prop
  | init : MasterReachable w h pc rnd (master_init w h pc rnd)
  | step {s t : game_state_t} (hs : MasterReachable w h pc rnd s)
      (hst : MasterStep s t) : MasterReachable w h pc rnd t

/-- The claim's cell-domain invariant: every board cell is a reward in 1..9
or a capture marker `-(i+1)` of a player index below `player_count`. -/
def cell_domain_ok (s : game_state_t) : Prop :=
  ∀ idx, idx < s.height * s.width →
    (1 ≤ s.board idx ∧ s.board idx ≤ 9) ∨
      ∃ i, i < s.player_count ∧ s.board idx = -(i + 1 : Int)

theorem place_player_width (s : game_state_t) (i : Nat) :
    (place_player s i).width = s.width := rfl

theorem place_player_height (s : game_state_t) (i : Nat) :
    (place_player s i).height = s.height := rfl

theorem place_player_count (s : game_state_t) (i : Nat) :
    (place_player s i).player_count = s.player_count := rfl

theorem apply_move_width (s : game_state_t) (i : Nat) (d : direction_t) :
    (apply_move s i d).width = s.width := rfl

theorem apply_move_height (s : game_state_t) (i : Nat) (d : direction_t) :
    (apply_move s i d).height = s.height := rfl

theorem apply_move_count (s : game_state_t) (i : Nat) (d : direction_t) :
    (apply_move s i d).player_count = s.player_count := rfl

/-- Placement for a valid player index preserves the cell-domain invariant. -/
theorem place_player_domain (s : game_state_t) (i : Nat) (hi : i < s.player_count)
    (h : cell_domain_ok s) : cell_domain_ok (place_player s i) := by
  intro idx hidx
  rw [place_player_height, place_player_width] at hidx
  have hb : (place_player s i).board =
      board_write s.board
        (((start_positions (s.width : Int) (s.height : Int) i).1 * (s.width : Int) +
          (start_positions (s.width : Int) (s.height : Int) i).2).toNat) (-(i + 1 : Int)) := rfl
  rw [hb, place_player_count]
  unfold board_write
  by_cases hc : idx =
      (((start_positions (s.width : Int) (s.height : Int) i).1 * (s.width : Int) +
        (start_positions (s.width : Int) (s.height : Int) i).2).toNat)
  · exact Or.inr ⟨i, hi, by simp [hc]⟩
  · simp only [hc, if_false]
    exact h idx hidx

/-- Applying a validated move preserves the cell-domain invariant. -/
theorem apply_move_domain (s : game_state_t) (i : Nat) (d : direction_t)
    (hi : i < s.player_count) (h : cell_domain_ok s) :
    cell_domain_ok (apply_move s i d) := by
  intro idx hidx
  rw [apply_move_height, apply_move_width] at hidx
  have hb : (apply_move s i d).board =
      board_write s.board
        (((apply_move_target ((s.players i).x : Int) ((s.players i).y : Int) d).2 *
            (s.width : Int) +
          (apply_move_target ((s.players i).x : Int) ((s.players i).y : Int) d).1).toNat)
        (-(i + 1 : Int)) := rfl
  rw [hb, apply_move_count]
  unfold board_write
  by_cases hc : idx =
      (((apply_move_target ((s.players i).x : Int) ((s.players i).y : Int) d).2 *
          (s.width : Int) +
        (apply_move_target ((s.players i).x : Int) ((s.players i).y : Int) d).1).toNat)
  · exact Or.inr ⟨i, hi, by simp [hc]⟩
  · simp only [hc, if_false]
    exact h idx hidx

/-- Every Master step preserves the cell-domain invariant. -/
theorem master_step_domain {s t : game_state_t} (hst : MasterStep s t)
    (h : cell_domain_ok s) : cell_domain_ok t := by
  cases hst with
  | place i hi => exact place_player_domain s i hi h
  | move i d hi hv => exact apply_move_domain s i d hi h

/-- The placement fold preserves the cell-domain invariant when every placed
index is below the (preserved) player count. -/
theorem foldl_place_domain (l : List Nat) (s : game_state_t)
    (hl : ∀ i ∈ l, i < s.player_count) (h : cell_domain_ok s) :
    cell_domain_ok (l.foldl place_player s) := by
  induction l generalizing s with
  | nil => exact h
  | cons a l ih =>
    simp only [List.foldl_cons]
    refine ih (place_player s a) ?_ ?_
    · intro i hi
      rw [place_player_count]
      exact hl i (List.mem_cons_self a l |> fun _ => List.mem_cons_of_mem a hi)
    · exact place_player_domain s a (hl a (List.mem_cons_self a l)) h

/-- The freshly initialized board satisfies the cell-domain invariant. -/
theorem master_init_domain (w h pc : Nat) (rnd : Nat → Nat) :
    cell_domain_ok (master_init w h pc rnd) := by
  unfold master_init place_players
  refine foldl_place_domain _ _ ?_ ?_
  · intro i hi
    simpa [initialize_board] using List.mem_range.mp hi
  · intro idx hidx
    left
    simp only [initialize_board] at hidx ⊢
    simp only [if_pos hidx]
    constructor
    · omega
    · have := Nat.mod_lt (rnd idx) (show 0 < 9 by omega)
      omega

/-- A Master step never turns a non-positive cell positive: the only board
writes are capture markers `-(i+1)`. -/
theorem master_step_mono {s t : game_state_t} (hst : MasterStep s t) :
    ∀ idx, s.board idx ≤ 0 → t.board idx ≤ 0 := by
  cases hst with
  | place i hi =>
    intro idx hle
    show board_write s.board _ _ idx ≤ 0
    unfold board_write
    split
    · omega
    · exact hle
  | move i d hi hv =>
    intro idx hle
    show board_write s.board _ _ idx ≤ 0
    unfold board_write
    split
    · omega
    · exact hle

/-- C5 — cell-domain invariant: in every state reachable from the Master's
initialization by placement and validated-move steps, every cell is a reward
in 1..9 or `-(i+1)` for a player index below the startup `player_count`;
and along any step sequence a cell that is non-positive stays non-positive. -/
theorem C5_cell_domain :
    (∀ w h pc rnd s, MasterReachable w h pc rnd s → cell_domain_ok s) ∧
    (∀ s t, Relation.ReflTransGen MasterStep s t →
      ∀ idx, s.board idx ≤ 0 → t.board idx ≤ 0) := by
  constructor
  · intro w h pc rnd s hs
    induction hs with
    | init => exact master_init_domain w h pc rnd
    | step hs hst ih => exact master_step_domain hst ih
  · intro s t hst idx hle
    induction hst with
    | refl => exact hle
    | tail hab hbc ih => exact master_step_mono hbc idx ih

/-- Witness for C5: the startup state on a 2 by 2 board with one player, and
one further valid RIGHT move; the player's marker cell stays non-positive. -/
theorem C5_cell_domain_witness :
    cell_domain_ok (master_init 2 2 1 (fun _ => 0)) ∧
    (apply_move (master_init 2 2 1 (fun _ => 0)) 0 direction_t.RIGHT).board 0 ≤ 0 :=
  ⟨C5_cell_domain.1 2 2 1 (fun _ => 0) _ MasterReachable.init,
    C5_cell_domain.2 (master_init 2 2 1 (fun _ => 0))
      (apply_move (master_init 2 2 1 (fun _ => 0)) 0 direction_t.RIGHT)
      (Relation.ReflTransGen.single
        (MasterStep.move (master_init 2 2 1 (fun _ => 0)) 0 direction_t.RIGHT
          (by decide) (by decide)))
      0 (by decide)⟩

/-- The synchronization block `game_sync_t` (common.h lines 49-57), with
each semaphore modelled by its counter value. -/
structure game_sync_t where
  master_to_view : Nat
  view_to_master : Nat
  master_mutex : Nat
  state_mutex : Nat
  reader_count_mutex : Nat
  reader_count : Nat
  player_mutex : Nat → Nat

/-- The semaphore values the Master installs at startup (master.c lines
261-293): handshake semaphores 0, the mutexes 1, `reader_count` 0, and every
per-player semaphore `player_mutex[i]` 1. -/
def master_sem_init : game_sync_t :=
  { master_to_view := 0, view_to_master := 0, master_mutex := 1, state_mutex := 1,
    reader_count_mutex := 1, reader_count := 0, player_mutex := fun _ => 1 }

/-- The increment of `invalid_moves` the Master performs on a rejected byte
(master.c lines 399-401 and 407-410). -/
def bump_invalid (s : game_state_t) (i : Nat) : game_state_t :=
  let pl := s.players i
  { s with
    players := players_write s.players i { pl with invalid_moves := usucc32 pl.invalid_moves } }

/-- Processing of one byte read from player i's pipe (master.c lines
395-423): take `state_mutex`, classify the byte (`move > 7` invalid,
otherwise validate and either apply or count invalid), release
`state_mutex`, and — when a view is attached — post `master_to_view` and
wait on `view_to_master`.  No per-player semaphore is touched. -/
def process_byte (st : game_state_t) (sy : game_sync_t) (i : Nat) (move : Nat)
    (has_view : Bool) : game_state_t × game_sync_t :=
  let sy1 := { sy with state_mutex := sy.state_mutex - 1 }
  let st' :=
    if 7 < move then bump_invalid st i
    else if is_valid_move st i (direction_t.ofCode move) then
      apply_move st i (direction_t.ofCode move)
    else bump_invalid st i
  let sy2 := { sy1 with state_mutex := sy1.state_mutex + 1 }
  let sy3 :=
    if has_view then
      { sy2 with
        master_to_view := sy2.master_to_view + 1
        view_to_master := sy2.view_to_master - 1 }
    else sy2
  (st', sy3)

/-- Counterexample to C1: the per-player semaphore is initialized to 1, not
to 0 as the claim states (master.c line 288 calls
`sem_init(&game_sync->player_mutex[i], 1, 1)`). -/
theorem C1_ready_token_cex : master_sem_init.player_mutex 0 ≠ 0 := by decide

/-- C1 amended — the per-player semaphore `player_mutex[i]` is initialized
to 1, and the Master posts no per-player token: processing a byte leaves
every per-player semaphore unchanged, so the token supply granted to player
i is the initial single unit, independent of `valid_moves[i]` and
`invalid_moves[i]`. -/
theorem C1_ready_token_amended :
    (∀ i, master_sem_init.player_mutex i = 1) ∧
    (∀ st sy i move has_view j,
      ((process_byte st sy i move has_view).2).player_mutex j = sy.player_mutex j) := by
  constructor
  · intro i
    rfl
  · intro st sy i move has_view j
    unfold process_byte
    by_cases hv : has_view = true <;> simp [hv]

/-- The end-of-iteration all-blocked test (master.c lines 438-444). -/
def all_blocked_check (s : game_state_t) : Bool :=
  (List.range s.player_count).all (fun i => (s.players i).blocked)

/-- The end-of-iteration termination evaluation (master.c lines 427-449):
first the inactivity timeout (`elapsed >= timeout_sec`, here with the
elapsed time in exact microseconds), then the all-blocked test; each sets
`game_over` and breaks out of the loop.  The returned Bool is true when the
Master exits the main loop. -/
def end_of_loop_check (s : game_state_t) (elapsed_us : Int) (timeout_sec : Int) :
    game_state_t × Bool :=
  if timeout_sec * 1000000 ≤ elapsed_us then ({ s with game_over := true }, true)
  else if all_blocked_check s then ({ s with game_over := true }, true)
  else (s, false)

/-- The eight-direction legal-move scan the claim describes (spec §4.6),
written from the spec's words: some direction code 0..7 passes
`is_valid_move`. -/
def has_legal_move (s : game_state_t) (i : Nat) : Bool :=
  (List.range 8).any (fun c => is_valid_move s i (direction_t.ofCode c))

/-- Some non-blocked player still has a legal move (spec §4.6 scan). -/
def exists_active_mover (s : game_state_t) : Bool :=
  (List.range s.player_count).any
    (fun i => !(s.players i).blocked && has_legal_move s i)

/-- A state on a 1 by 1 board: the single player is not blocked and no
direction is legal (every target is out of bounds). -/
def stuck_state : game_state_t :=
  { width := 1, height := 1, player_count := 1,
    players := fun _ =>
      { score := 0, invalid_moves := 0, valid_moves := 0, x := 0, y := 0, blocked := false },
    game_over := false, board := fun _ => -1 }

/-- Counterexample to C2: in `stuck_state` no non-blocked player has any
legal move, yet the end-of-iteration evaluation (timeout not reached)
neither sets `game_over` nor exits the loop — master.c scans only the
`blocked` flags, never the board. -/
theorem C2_blockage_cex :
    exists_active_mover stuck_state = false ∧
    (end_of_loop_check stuck_state 0 10).1.game_over = false ∧
    (end_of_loop_check stuck_state 0 10).2 = false := by
  exact ⟨by decide, by decide, by decide⟩

/-- C2 amended — at the end of an event-loop iteration the Master sets
`game_over` and exits the loop exactly when the inactivity timeout has
elapsed or every player is blocked; no legal-move scan takes part, so
global absence of legal moves does not by itself end the game. -/
theorem C2_blockage_amended (s : game_state_t) (e t : Int) :
    ((end_of_loop_check s e t).1.game_over = true ∧ (end_of_loop_check s e t).2 = true) ↔
      (t * 1000000 ≤ e ∨ all_blocked_check s = true) := by
  unfold end_of_loop_check
  by_cases h1 : t * 1000000 ≤ e
  · simp [h1]
  · by_cases h2 : all_blocked_check s = true <;> simp [h1, h2]

/-- The outcome of the Master's readiness multiplex (master.c line 376):
either a count of ready descriptors or a failure with an `errno` value. -/
inductive select_result where
  | ready (n : Nat)
  | error (errno : Nat)

/-- The `errno` value for an interrupted call. -/
def EINTR : Nat := 4

/-- The Master's handling of the `select` return value (master.c lines
378-381): any -1 return prints an error and breaks out of the main loop;
the Bool is true when the loop is exited. -/
def select_breaks_loop : select_result → Bool
  | .error _ => true
  | .ready _ => false

/-- Counterexample to C7: a `select` interrupted by a signal (-1 with
`errno = EINTR`) makes the Master exit the main loop — it is not retried. -/
theorem C7_eintr_cex : select_breaks_loop (select_result.error EINTR) = true := rfl

/-- C7 amended — the Master never retries a failed `select`: every -1
return, whatever the `errno` (EINTR included), exits the main loop, and a
non-negative return never exits the loop at that point. -/
theorem C7_eintr_amended :
    (∀ e, select_breaks_loop (select_result.error e) = true) ∧
    (∀ n, select_breaks_loop (select_result.ready n) = false) :=
  ⟨fun _ => rfl, fun _ => rfl⟩

/-- The local variables of the winner loop (master.c lines 477-480). -/
structure rank_acc where
  winner : Int
  max_score : Nat
  min_valid : Nat
  min_invalid : Nat
deriving DecidableEq

/-- One iteration of the winner loop (master.c lines 482-500), fed the
player index and record. -/
def rank_step (acc : rank_acc) (ip : Nat × player_t) : rank_acc :=
  if acc.max_score < ip.2.score then
    { winner := (ip.1 : Int), max_score := ip.2.score, min_valid := ip.2.valid_moves,
      min_invalid := ip.2.invalid_moves }
  else if ip.2.score = acc.max_score then
    if ip.2.valid_moves < acc.min_valid then
      { winner := (ip.1 : Int), max_score := acc.max_score, min_valid := ip.2.valid_moves,
        min_invalid := ip.2.invalid_moves }
    else if ip.2.valid_moves = acc.min_valid then
      if ip.2.invalid_moves < acc.min_invalid then
        { acc with winner := (ip.1 : Int), min_invalid := ip.2.invalid_moves }
      else acc
    else acc
  else acc

/-- The winner computation (master.c lines 476-506): the loop in player
index order from `winner = -1`, `max_score = 0`,
`min_valid_moves = min_invalid_moves = 99999`; the caller reports a tie
("Empate") exactly when the result is -1. -/
def determine_winner (ps : List player_t) : Int :=
  (List.foldl rank_step
    { winner := -1, max_score := 0, min_valid := 99999, min_invalid := 99999 }
    ps.enum).winner

/-- The player record of the tie counterexample. -/
def tied_player : player_t :=
  { score := 5, invalid_moves := 2, valid_moves := 3, x := 0, y := 0, blocked := false }

/-- Counterexample to C6: two players tied on all three ranking keys do not
yield a tie report; the loop keeps the first player (index 0), not the tie
marker -1. -/
theorem C6_ranking_cex :
    determine_winner [tied_player, tied_player] = 0 ∧
    determine_winner [tied_player, tied_player] ≠ -1 := by
  constructor <;> decide

/-- The three ranking keys of a player: score, valid moves, invalid moves. -/
def pkey (p : player_t) : Nat × Nat × Nat := (p.score, p.valid_moves, p.invalid_moves)

/-- The running keys held by the loop accumulator. -/
def acc_key (acc : rank_acc) : Nat × Nat × Nat :=
  (acc.max_score, acc.min_valid, acc.min_invalid)

/-- Strict ranking order on key triples: higher score first, then fewer
valid moves, then fewer invalid moves. -/
def kbetter (a b : Nat × Nat × Nat) : Prop :=
  b.1 < a.1 ∨ (a.1 = b.1 ∧ (a.2.1 < b.2.1 ∨ (a.2.1 = b.2.1 ∧ a.2.2 < b.2.2)))

/-- `rank_better p q` means player p ranks strictly above player q. -/
def rank_better (p q : player_t) : Prop := kbetter (pkey p) (pkey q)

theorem kbetter_irrefl (a : Nat × Nat × Nat) : ¬kbetter a a := by
  unfold kbetter
  omega

theorem kbetter_trans {a b c : Nat × Nat × Nat} (h1 : kbetter a b) (h2 : kbetter b c) :
    kbetter a c := by
  unfold kbetter at h1 h2 ⊢
  omega

theorem kbetter_asymm {a b : Nat × Nat × Nat} (h : kbetter a b) : ¬kbetter b a := by
  unfold kbetter at h ⊢
  omega

theorem kbetter_total (a b : Nat × Nat × Nat) :
    kbetter a b ∨ (a.1 = b.1 ∧ a.2.1 = b.2.1 ∧ a.2.2 = b.2.2) ∨ kbetter b a := by
  unfold kbetter
  omega

theorem kbetter_congr_left {a b c : Nat × Nat × Nat}
    (h : a.1 = b.1 ∧ a.2.1 = b.2.1 ∧ a.2.2 = b.2.2) : kbetter a c ↔ kbetter b c := by
  unfold kbetter
  omega

/-- Decidability of the ranking order. -/
instance (a b : Nat × Nat × Nat) : Decidable (kbetter a b) := by
  unfold kbetter
  infer_instance

/-- The accumulator recording player i as the running candidate. -/
def cand (i : Nat) (p : player_t) : rank_acc :=
  { winner := (i : Int), max_score := p.score, min_valid := p.valid_moves,
    min_invalid := p.invalid_moves }

theorem acc_key_cand (i : Nat) (p : player_t) : acc_key (cand i p) = pkey p := rfl

/-- The loop body replaces the running candidate exactly when the new player
ranks strictly above the running keys. -/
theorem rank_step_eq (acc : rank_acc) (i : Nat) (p : player_t) :
    rank_step acc (i, p) =
      if kbetter (pkey p) (acc_key acc) then cand i p else acc := by
  unfold rank_step cand
  by_cases h1 : acc.max_score < p.score
  · have hk : kbetter (pkey p) (acc_key acc) := Or.inl h1
    simp [h1, hk]
  · by_cases h2 : p.score = acc.max_score
    · by_cases h3 : p.valid_moves < acc.min_valid
      · have hk : kbetter (pkey p) (acc_key acc) := Or.inr ⟨h2, Or.inl h3⟩
        simp [h1, h2, h3, hk]
      · by_cases h4 : p.valid_moves = acc.min_valid
        · by_cases h5 : p.invalid_moves < acc.min_invalid
          · have hk : kbetter (pkey p) (acc_key acc) := Or.inr ⟨h2, Or.inr ⟨h4, h5⟩⟩
            simp [h1, h2, h3, h4, h5, hk]
          · have hk : ¬kbetter (pkey p) (acc_key acc) := by
              unfold kbetter pkey acc_key
              simp only
              omega
            simp [h1, h2, h3, h4, h5, hk]
        · have hk : ¬kbetter (pkey p) (acc_key acc) := by
            unfold kbetter pkey acc_key
            simp only
            omega
          simp [h1, h2, h3, h4, hk]
    · have hk : ¬kbetter (pkey p) (acc_key acc) := by
        unfold kbetter pkey acc_key
        simp only
        omega
      simp [h1, h2, hk]

/-- The default player record used by positional lookups. -/
def pdef : player_t :=
  { score := 0, invalid_moves := 0, valid_moves := 0, x := 0, y := 0, blocked := false }

/-- Behaviour of the winner fold over a suffix: either no listed player
beats the running candidate and the accumulator survives, or the result is
the first-ranked listed player (leftmost among equals), recorded with its
absolute index. -/
theorem fold_rank_suffix (l : List player_t) : ∀ (k : Nat) (acc : rank_acc),
    (List.foldl rank_step acc (List.enumFrom k l) = acc ∧
      ∀ p ∈ l, ¬kbetter (pkey p) (acc_key acc)) ∨
    (∃ j, j < l.length ∧
      List.foldl rank_step acc (List.enumFrom k l) = cand (k + j) (l.getD j pdef) ∧
      kbetter (pkey (l.getD j pdef)) (acc_key acc) ∧
      (∀ p ∈ l, ¬kbetter (pkey p) (pkey (l.getD j pdef))) ∧
      (∀ j', j' < j → kbetter (pkey (l.getD j pdef)) (pkey (l.getD j' pdef)))) := by
  induction l with
  | nil =>
    intro k acc
    left
    exact ⟨rfl, by simp⟩
  | cons p l ih =>
    intro k acc
    have hstep : List.foldl rank_step acc (List.enumFrom k (p :: l)) =
        List.foldl rank_step (rank_step acc (k, p)) (List.enumFrom (k + 1) l) := rfl
    by_cases hb : kbetter (pkey p) (acc_key acc)
    · -- p replaces the running candidate
      have hacc' : rank_step acc (k, p) = cand k p := by
        rw [rank_step_eq, if_pos hb]
      rcases ih (k + 1) (cand k p) with ⟨heq, hall⟩ | ⟨j, hj, heq, hbet, hall, hfirst⟩
      · right
        refine ⟨0, by simp, ?_, ?_, ?_, ?_⟩
        · rw [hstep, hacc', heq]
          simp [cand]
        · simpa using hb
        · intro q hq
          rcases List.mem_cons.mp hq with hq | hq
          · subst hq
            simpa using kbetter_irrefl (pkey q)
          · have := hall q hq
            rw [acc_key_cand] at this
            simpa using this
        · intro j' hj'
          omega
      · right
        rw [acc_key_cand] at hbet
        refine ⟨j + 1, by simpa using hj, ?_, ?_, ?_, ?_⟩
        · rw [hstep, hacc', heq]
          have harith : k + 1 + j = k + (j + 1) := by omega
          simp [harith]
        · simpa using kbetter_trans hbet hb
        · intro q hq
          rcases List.mem_cons.mp hq with hq | hq
          · subst hq
            simpa using kbetter_asymm hbet
          · simpa using hall q hq
        · intro j' hj'
          cases j' with
          | zero => simpa using hbet
          | succ j'' =>
            have := hfirst j'' (by omega)
            simpa using this
    · -- the running candidate survives the first element
      have hacc' : rank_step acc (k, p) = acc := by
        rw [rank_step_eq, if_neg hb]
      rcases ih (k + 1) acc with ⟨heq, hall⟩ | ⟨j, hj, heq, hbet, hall, hfirst⟩
      · left
        refine ⟨by rw [hstep, hacc', heq], ?_⟩
        intro q hq
        rcases List.mem_cons.mp hq with hq | hq
        · subst hq
          exact hb
        · exact hall q hq
      · right
        refine ⟨j + 1, by simpa using hj, ?_, ?_, ?_, ?_⟩
        · rw [hstep, hacc', heq]
          have harith : k + 1 + j = k + (j + 1) := by omega
          simp [harith]
        · simpa using hbet
        · intro q hq
          rcases List.mem_cons.mp hq with hq | hq
          · subst hq
            intro hcon
            exact hb (kbetter_trans hcon hbet)
          · simpa using hall q hq
        · intro j' hj'
          cases j' with
          | zero =>
            simp only [List.getD_cons_succ, List.getD_cons_zero]
            rcases kbetter_total (pkey (l.getD j pdef)) (pkey p) with h | h | h
            · exact h
            · exact absurd ((kbetter_congr_left h).mp hbet) hb
            · exact absurd (kbetter_trans h hbet) hb
          | succ j'' =>
            have := hfirst j'' (by omega)
            simpa using this

/-- C6 amended — the winner loop selects the lowest-indexed player that no
player outranks under the order: higher score, then fewer valid moves, then
fewer invalid moves; when players tie on all three keys the lowest-indexed
one is declared winner, so the tie report (-1, "Empate") is not produced
for full ties.  The hypothesis keeps every `valid_moves` below the loop's
99999 sentinel. -/
theorem C6_ranking_amended (ps : List player_t) (hne : ps ≠ [])
    (hv : ∀ p ∈ ps, p.valid_moves < 99999) :
    ∃ w, w < ps.length ∧ determine_winner ps = (w : Int) ∧
      (∀ q ∈ ps, ¬rank_better q (ps.getD w pdef)) ∧
      (∀ j, j < w → rank_better (ps.getD w pdef) (ps.getD j pdef)) := by
  cases ps with
  | nil => exact absurd rfl hne
  | cons p0 rest =>
    have hv0 : p0.valid_moves < 99999 := hv p0 (List.mem_cons_self p0 rest)
    have hfirst0 : rank_step
        { winner := -1, max_score := 0, min_valid := 99999, min_invalid := 99999 }
        (0, p0) = cand 0 p0 := by
      rw [rank_step_eq, if_pos ?_]
      unfold kbetter pkey acc_key
      simp only
      omega
    have hunf : determine_winner (p0 :: rest) =
        (List.foldl rank_step (cand 0 p0) (List.enumFrom 1 rest)).winner := by
      unfold determine_winner
      rw [show (p0 :: rest).enum = (0, p0) :: List.enumFrom 1 rest from rfl]
      rw [List.foldl_cons, hfirst0]
    rcases fold_rank_suffix rest 1 (cand 0 p0) with ⟨heq, hall⟩ |
        ⟨j, hj, heq, hbet, hall, hfst⟩
    · refine ⟨0, by simp, ?_, ?_, ?_⟩
      · rw [hunf, heq]
        rfl
      · intro q hq
        rcases List.mem_cons.mp hq with hq | hq
        · subst hq
          simpa [rank_better] using kbetter_irrefl (pkey q)
        · have := hall q hq
          rw [acc_key_cand] at this
          simpa [rank_better] using this
      · intro j hj
        omega
    · rw [acc_key_cand] at hbet
      refine ⟨j + 1, by simpa using hj, ?_, ?_, ?_⟩
      · rw [hunf, heq]
        have harith : 1 + j = j + 1 := by omega
        simp [cand, harith]
      · intro q hq
        rcases List.mem_cons.mp hq with hq | hq
        · subst hq
          simpa [rank_better] using kbetter_asymm hbet
        · simpa [rank_better] using hall q hq
      · intro j' hj'
        cases j' with
        | zero => simpa [rank_better] using hbet
        | succ j'' =>
          have := hfst j'' (by omega)
          simpa [rank_better] using this

/-- Witness for the amended C6: on two fully tied players the loop selects
index 0, the optimum of lowest index. -/
theorem C6_ranking_amended_witness :
    ∃ w, w < ([tied_player, tied_player]).length ∧
      determine_winner [tied_player, tied_player] = (w : Int) ∧
      (∀ q ∈ [tied_player, tied_player],
        ¬rank_better q (([tied_player, tied_player]).getD w pdef)) ∧
      (∀ j, j < w → rank_better (([tied_player, tied_player]).getD w pdef)
        (([tied_player, tied_player]).getD j pdef)) :=
  C6_ranking_amended [tied_player, tied_player] (by decide) (by decide)

/-- Abstract POSIX outcome environment for `shm_manager_open`: whether the
named object exists, the caller's read and write permission on it, the
`fstat` answer, and whether `mmap` and `calloc` succeed, with the `errno`
values a failing call leaves. -/
structure shm_env where
  obj_exists : Bool
  write_perm : Bool
  read_perm : Bool
  fstat_ok : Bool
  fstat_errno : Nat
  st_size : Nat
  mmap_ok : Bool
  mmap_errno : Nat
  calloc_ok : Bool
  calloc_errno : Nat
deriving DecidableEq

/-- The fields of `struct shm_manager` (shm_manager.c lines 12-20) that the
open contract speaks about. -/
structure shm_handle where
  map_size : Nat
  data_size : Nat
  has_front_sem : Bool
  read_only : Bool
deriving DecidableEq

/-- The observable outcome of `shm_manager_open`: the handle when one is
returned (NULL otherwise), the `errno` left on failure (0 on success), and
whether `mmap` was ever called. -/
structure open_outcome where
  handle : Option shm_handle
  errno : Nat
  mmap_called : Bool
deriving DecidableEq

/-- `errno` values used by shm_manager.c. -/
def ENOENT : Nat := 2

/-- `errno` value for denied permission. -/
def EACCES : Nat := 13

/-- `errno` value for an invalid argument. -/
def EINVAL : Nat := 22

/-- The platform's `sizeof(sem_t)` (32 on x86-64 glibc). -/
def SIZEOF_SEM_T : Nat := 32

/-- `shm_manager_open` (shm_manager.c lines 83-162) over the abstract
environment: NULL name fails `EINVAL`; `shm_open(O_RDWR)` needs the object
to exist with read and write permission, and on `EACCES` without a front
semaphore the code retries `O_RDONLY`, marking the mapping read-only; with
`data_size == 0` the size comes from `fstat`, rejecting size 0 and front
semaphores that do not fit; then `mmap` and the bookkeeping allocation. -/
def shm_manager_open (env : shm_env) (name_null : Bool) (data_size : Nat)
    (with_front_sem : Bool) : open_outcome :=
  if name_null then { handle := none, errno := EINVAL, mmap_called := false }
  else
    let rdwr_ok := env.obj_exists && env.write_perm && env.read_perm
    let rdwr_errno := if !env.obj_exists then ENOENT else EACCES
    let fallback := !rdwr_ok && rdwr_errno = EACCES && !with_front_sem
    let rdonly_ok := fallback && env.obj_exists && env.read_perm
    let read_only := !rdwr_ok && rdonly_ok
    if !rdwr_ok && !rdonly_ok then
      { handle := none, errno := if fallback then EACCES else rdwr_errno,
        mmap_called := false }
    else
      let sem_extra := if with_front_sem then SIZEOF_SEM_T else 0
      if data_size = 0 then
        if !env.fstat_ok then
          { handle := none, errno := env.fstat_errno, mmap_called := false }
        else if env.st_size = 0 then
          { handle := none, errno := EINVAL, mmap_called := false }
        else if with_front_sem && env.st_size < SIZEOF_SEM_T then
          { handle := none, errno := EINVAL, mmap_called := false }
        else if !env.mmap_ok then
          { handle := none, errno := env.mmap_errno, mmap_called := true }
        else if !env.calloc_ok then
          { handle := none, errno := env.calloc_errno, mmap_called := true }
        else
          { handle := some
              { map_size := env.st_size, data_size := env.st_size - sem_extra,
                has_front_sem := with_front_sem, read_only := read_only },
            errno := 0, mmap_called := true }
      else
        if !env.mmap_ok then
          { handle := none, errno := env.mmap_errno, mmap_called := true }
        else if !env.calloc_ok then
          { handle := none, errno := env.calloc_errno, mmap_called := true }
        else
          { handle := some
              { map_size := data_size + sem_extra, data_size := data_size,
                has_front_sem := with_front_sem, read_only := read_only },
            errno := 0, mmap_called := true }

set_option maxHeartbeats 1000000 in
/-- C8 — shared-region open contract: the open operates on an existing
object (a missing name fails with `ENOENT` and no mapping); when
`data_size` is 0 a returned handle's mapped size is the `fstat` file size;
and when write access is denied but no front semaphore is required the open
returns a read-only mapping instead of failing. -/
theorem C8_open_contract :
    (∀ env ds fs, env.obj_exists = false →
      shm_manager_open env false ds fs =
        { handle := none, errno := ENOENT, mmap_called := false }) ∧
    (∀ env fs h, (shm_manager_open env false 0 fs).handle = some h →
      h.map_size = env.st_size) ∧
    (∀ env ds, env.obj_exists = true → env.write_perm = false → env.read_perm = true →
      env.mmap_ok = true → env.calloc_ok = true → env.fstat_ok = true →
      0 < env.st_size →
      ∃ h, (shm_manager_open env false ds false).handle = some h ∧
        h.read_only = true) := by
  refine ⟨?_, ?_, ?_⟩
  · intro env ds fs hmiss
    simp only [shm_manager_open]
    simp [hmiss, ENOENT, EACCES]
  · intro env fs h heq
    simp only [shm_manager_open] at heq
    split_ifs at heq <;> simp_all
    all_goals (subst heq; rfl)
  · intro env ds hobj hw hr hm hc hf hsz
    simp only [shm_manager_open]
    by_cases hds : ds = 0
    · subst hds
      have hne : ¬env.st_size = 0 := by omega
      simp [hobj, hw, hr, hm, hc, hf, hne, EACCES, SIZEOF_SEM_T]
    · simp [hds, hobj, hw, hr, hm, hc, hf, EACCES]

/-- Environment of a missing shared object. -/
def env_missing : shm_env :=
  { obj_exists := false, write_perm := true, read_perm := true, fstat_ok := true,
    fstat_errno := 0, st_size := 64, mmap_ok := true, mmap_errno := 0,
    calloc_ok := true, calloc_errno := 0 }

/-- Environment of an existing 64-byte object the caller may only read. -/
def env_ro : shm_env :=
  { obj_exists := true, write_perm := false, read_perm := true, fstat_ok := true,
    fstat_errno := 0, st_size := 64, mmap_ok := true, mmap_errno := 0,
    calloc_ok := true, calloc_errno := 0 }

/-- The handle the read-only open of `env_ro` produces. -/
def demo_handle : shm_handle :=
  { map_size := 64, data_size := 64, has_front_sem := false, read_only := true }

/-- Witness for C8: a missing object fails with `ENOENT`; a zero-hint open
of a 64-byte object maps 64 bytes; a write-denied object yields a read-only
handle. -/
theorem C8_open_contract_witness :
    shm_manager_open env_missing false 0 false =
      { handle := none, errno := ENOENT, mmap_called := false } ∧
    demo_handle.map_size = env_ro.st_size ∧
    (∃ h, (shm_manager_open env_ro false 0 false).handle = some h ∧
      h.read_only = true) :=
  ⟨C8_open_contract.1 env_missing 0 false rfl,
    C8_open_contract.2.1 env_ro false demo_handle (by decide),
    C8_open_contract.2.2 env_ro 0 rfl rfl rfl rfl rfl rfl (by decide)⟩

/-- C10 — zero-size open edge case: opening an existing object with
`data_size` 0 whose file size is 0 returns NULL with `errno = EINVAL` and
never calls `mmap`. -/
theorem C10_zero_size_open (env : shm_env) (fs : Bool)
    (he : env.obj_exists = true) (hw : env.write_perm = true) (hr : env.read_perm = true)
    (hf : env.fstat_ok = true) (hs : env.st_size = 0) :
    shm_manager_open env false 0 fs =
      { handle := none, errno := EINVAL, mmap_called := false } := by
  unfold shm_manager_open
  simp [he, hw, hr, hf, hs]

/-- Environment of an existing, readable and writable, zero-length object. -/
def env_empty : shm_env :=
  { obj_exists := true, write_perm := true, read_perm := true, fstat_ok := true,
    fstat_errno := 0, st_size := 0, mmap_ok := true, mmap_errno := 0,
    calloc_ok := true, calloc_errno := 0 }

/-- Witness for C10 on the zero-length object. -/
theorem C10_zero_size_open_witness :
    shm_manager_open env_empty false 0 false =
      { handle := none, errno := EINVAL, mmap_called := false } :=
  C10_zero_size_open env_empty false rfl rfl rfl rfl rfl

end SOTP1
